import Mathlib

/-!
Verification of the automation rule engine of the mqtt-demo repository
(`src/control/rule-engine.ts`): a shallow embedding of the engine's data
model and evaluation algorithm, followed by theorems settling the listed
claims about it.

JavaScript runtime values are modelled by the inductive `JSVal`; numbers
are rationals extended with a NaN element (`JSNum`).  Exact dyadic
magnitudes used by the engine (hours, minutes, millisecond timestamps,
priorities, thresholds) behave identically in `ℚ` and in IEEE doubles, so
no floating-point rounding is modelled.  Structured values compare by
reference in JavaScript; condition constants and telemetry payloads never
alias in the engine, so reference equality of distinct structured values
is modelled as `false`.  Functions, symbols and prototype-chain lookups do
not occur in the engine's data and are outside the model.
-/

set_option linter.unusedVariables false

namespace MqttDemo

/-- A JavaScript number: an exact rational or NaN. -/
inductive JSNum : Type
  | nan : JSNum
  | val (q : ℚ) : JSNum
deriving DecidableEq, Repr

/-- A JavaScript runtime value (no functions/symbols; see the file header). -/
inductive JSVal : Type
  | undef : JSVal
  | null : JSVal
  | boolean (b : Bool) : JSVal
  | number (n : JSNum) : JSVal
  | str (s : String) : JSVal
  | arr (elems : List JSVal) : JSVal
  | obj (fields : List (String × JSVal)) : JSVal

/-- JavaScript strict equality `===`.  `NaN === NaN` is false; arrays and
objects compare by reference, and distinct structured values never alias in
the engine, so the structured cases are `false`. -/
def strictEq : JSVal → JSVal → Bool
  | .undef, .undef => true
  | .null, .null => true
  | .boolean a, .boolean b => a == b
  | .number (.val a), .number (.val b) => a == b
  | .str a, .str b => a == b
  | _, _ => false

/-- SameValueZero, used by `Array.prototype.includes`: like `===` except
that NaN equals NaN. -/
def sameValueZero : JSVal → JSVal → Bool
  | .number .nan, .number .nan => true
  | a, b => strictEq a b

/-!  String primitives, reimplemented structurally over `List Char` so
that every definition evaluates inside the kernel (the library's `String`
functions use well-founded recursion). -/

/-- Split a character list at every occurrence of a separator character,
the semantics of `String.prototype.split` with a one-character separator. -/
def splitChars (sep : Char) : List Char → List (List Char)
  | [] => [[]]
  | c :: rest =>
    let r := splitChars sep rest
    if c = sep then [] :: r
    else
      match r with
      | [] => [[c]]
      | g :: gs => (c :: g) :: gs

/-- `s.split(sep)` for a single-character separator. -/
def jsSplit (s : String) (sep : Char) : List String :=
  (splitChars sep s.toList).map String.mk

/-- Whether the first list starts with the second. -/
def startsWithChars : List Char → List Char → Bool
  | _, [] => true
  | [], _ :: _ => false
  | c :: cs, p :: ps => c = p && startsWithChars cs ps

/-- Whether the first list contains the second as a contiguous run. -/
def containsChars : List Char → List Char → Bool
  | [], pat => pat.isEmpty
  | c :: rest, pat => startsWithChars (c :: rest) pat || containsChars rest pat

/-- Digits-only parse of a character list. -/
def parseDigits : List Char → Option ℕ
  | [] => none
  | cs =>
    if cs.all Char.isDigit then
      some (cs.foldl (fun acc c => 10 * acc + (c.toNat - 48)) 0)
    else none

/-- Parse an unsigned decimal literal `digits`, `digits.digits`,
`digits.` or `.digits` into a rational (`i.f` is `(i·10^|f| + f)/10^|f|`). -/
def parseUnsignedChars (cs : List Char) : Option ℚ :=
  match splitChars '.' cs with
  | [intPart] => (parseDigits intPart).map (fun n => (n : ℚ))
  | [intPart, fracPart] =>
    if intPart.isEmpty && fracPart.isEmpty then none
    else
      let ip : Option ℕ := if intPart.isEmpty then some 0 else parseDigits intPart
      let fp : Option ℕ := if fracPart.isEmpty then some 0 else parseDigits fracPart
      match ip, fp with
      | some i, some f =>
        some (mkRat ((i * 10 ^ fracPart.length + f : ℕ) : ℤ) (10 ^ fracPart.length))
      | _, _ => none
  | _ => none

/-- An optionally signed decimal literal. -/
def parseSignedChars : List Char → Option ℚ
  | '-' :: rest => (parseUnsignedChars rest).map Neg.neg
  | '+' :: rest => parseUnsignedChars rest
  | cs => parseUnsignedChars cs

/-- `Number(string)`: trim; empty string is 0; otherwise parse an optional
sign and a decimal literal, NaN on failure.  (Hex/binary/exponent literals
never occur in the engine's data and are not modelled.) -/
def parseNumber (s : String) : JSNum :=
  let t := ((s.toList.dropWhile Char.isWhitespace).reverse.dropWhile Char.isWhitespace).reverse
  if t.isEmpty then .val 0
  else
    match parseSignedChars t with
    | some q => .val q
    | none => .nan

/-- String rendering of a number.  Integers render as in JavaScript; the
engine's claims never coerce a non-integral number to a string, so
non-integers use the rational's own representation. -/
def numToString : JSNum → String
  | .nan => "NaN"
  | .val q => if q.den = 1 then toString q.num else toString q

/-- Join strings with commas, as `Array.prototype.toString` does. -/
def joinWithComma : List String → String
  | [] => ""
  | [s] => s
  | s :: rest => s ++ "," ++ joinWithComma rest

mutual

/-- JavaScript `String(v)` coercion. -/
def jsToString : JSVal → String
  | .undef => "undefined"
  | .null => "null"
  | .boolean b => if b then "true" else "false"
  | .number n => numToString n
  | .str s => s
  | .arr xs => joinWithComma (arrElemStrings xs)
  | .obj _ => "[object Object]"

/-- Array elements joined by `Array.prototype.toString`: `null` and
`undefined` elements render as the empty string. -/
def arrElemStrings : List JSVal → List String
  | [] => []
  | .undef :: rest => "" :: arrElemStrings rest
  | .null :: rest => "" :: arrElemStrings rest
  | v :: rest => jsToString v :: arrElemStrings rest

end

/-- JavaScript `Number(v)` coercion. -/
def toNumber : JSVal → JSNum
  | .undef => .nan
  | .null => .val 0
  | .boolean b => .val (if b then 1 else 0)
  | .number n => n
  | .str s => parseNumber s
  | .arr xs => parseNumber (joinWithComma (arrElemStrings xs))
  | .obj _ => .nan

/-!  Exact rational arithmetic, written with `mkRat` so that the kernel
can evaluate it on concrete inputs; each operation is proved equal to the
library one below. -/

/-- Rational addition via `mkRat`. -/
def ratAdd (a b : ℚ) : ℚ :=
  mkRat (a.num * b.den + b.num * a.den) (a.den * b.den)

/-- Rational multiplication via `mkRat`. -/
def ratMul (a b : ℚ) : ℚ :=
  mkRat (a.num * b.num) (a.den * b.den)

/-- `a < b` on JavaScript numbers: false when either side is NaN. -/
def numLt : JSNum → JSNum → Bool
  | .val a, .val b => a < b
  | _, _ => false

/-- `a <= b` on JavaScript numbers: false when either side is NaN. -/
def numLe : JSNum → JSNum → Bool
  | .val a, .val b => a ≤ b
  | _, _ => false

/-- `String.prototype.includes`: the empty pattern is always contained. -/
def jsIncludes (s pat : String) : Bool :=
  containsChars s.toList pat.toList

/-- A canonical array index: `"0"` or digits without a leading zero. -/
def toArrayIndex (s : String) : Option ℕ :=
  match s.toList with
  | [] => none
  | c :: rest =>
    if c = '0' then (if rest = [] then some 0 else none)
    else parseDigits (c :: rest)

/-!  An insertion-ordered map, the behaviour of a JavaScript `Map`:
`set` on an existing key updates the value in place (keeping the key's
position), otherwise appends; iteration follows this order. -/

/-- `Map.prototype.get`. -/
def mapGet {α : Type} : List (String × α) → String → Option α
  | [], _ => none
  | (k, v) :: rest, key => if k = key then some v else mapGet rest key

/-- `Map.prototype.set`: update in place, or append a new entry. -/
def mapSet {α : Type} : List (String × α) → String → α → List (String × α)
  | [], key, v => [(key, v)]
  | (k, w) :: rest, key, v =>
    if k = key then (key, v) :: rest else (k, w) :: mapSet rest key v

/-- `Map.prototype.delete`, returning the map and whether a key was removed. -/
def mapDelete {α : Type} : List (String × α) → String → List (String × α) × Bool
  | [], _ => ([], false)
  | (k, v) :: rest, key =>
    if k = key then (rest, true)
    else
      let r := mapDelete rest key
      ((k, v) :: r.1, r.2)

/-- `Array.from(map.values())` in insertion order. -/
def mapValuesList {α : Type} (m : List (String × α)) : List α :=
  m.map Prod.snd

/-!  The engine's data model (`rule-engine.ts`).  TypeScript's union-typed
string tags are modelled as plain strings: rules arrive as untyped data at
runtime and the evaluator has explicit `default` arms for unknown tags.
Optional fields are `Option`s; an optional `any` field is a `JSVal` where
absence is `JSVal.undef` (absence and explicit `undefined` are not
distinguished by the engine). -/

/-- A rule condition. -/
structure Condition : Type where
  type : String
  deviceId : Option String
  property : Option String
  operator : String
  value : JSVal
  secondValue : JSVal
  logicalOperator : Option String

/-- A rule action (opaque to the engine, handed to callbacks). -/
structure Action : Type where
  type : String
  deviceId : Option String
  command : JSVal
  message : Option String
  delayMs : Option JSNum
  webhookUrl : Option String
  severity : Option String

/-- An automation rule. -/
structure Rule : Type where
  id : String
  name : String
  description : String
  enabled : Bool
  conditions : List Condition
  actions : List Action
  cooldownMs : Option JSNum
  priority : ℚ

/-- Latest known telemetry for one device.  Timestamps are milliseconds
since the epoch. -/
structure DeviceData : Type where
  deviceId : String
  deviceType : String
  room : String
  name : String
  topic : String
  value : JSVal
  timestamp : ℕ
  online : Bool

/-- The ambient wall clock during one synchronous engine call: `Date.now()`
in milliseconds together with the local-time fields `getHours()`,
`getMinutes()` and `getDay()` of `new Date()`. -/
structure Clock : Type where
  nowMs : ℕ
  hour : ℕ
  minute : ℕ
  dayOfWeek : ℕ

/-- The context handed to execution callbacks on a firing. -/
structure RuleExecutionContext : Type where
  rule : Rule
  triggerDevice : DeviceData
  allDevices : List (String × DeviceData)
  timestamp : ℕ

/-- An execution callback.  The engine ignores its result except for
catching a thrown error, so a callback is modelled as a function that may
fail; callbacks do not mutate engine state in this model (re-entrant
triggering is a documented hazard outside the claims). -/
def Callback : Type :=
  RuleExecutionContext → List Action → Except String Unit

/-- The mutable state of a `RuleEngine` instance. -/
structure EngineState : Type where
  rules : List (String × Rule)
  devices : List (String × DeviceData)
  lastExecution : List (String × ℕ)
  executionCallbacks : List Callback

/-- A thrown JavaScript error escaping the engine. -/
inductive JsError : Type
  | typeError (msg : String) : JsError
deriving DecidableEq, Repr

/-- Observable steps of one dispatch pass, in order of occurrence. -/
inductive Event : Type
  | ruleFired (rule : Rule) (time : ℕ)
  | callbackInvoked (index : ℕ) (ctx : RuleExecutionContext)
  | callbackError (index : ℕ) (ctx : RuleExecutionContext)

/-- The outcome of a public engine call: the final state, the events that
occurred, and the error that escaped to the caller, if any (side effects
before the throw persist, as in JavaScript). -/
structure RunResult : Type where
  state : EngineState
  events : List Event
  error : Option JsError

/-!  The value extractor (`getPropertyValue`, lines 227-243). -/

/-- One step `part in value` followed by `value[part]`, for own
properties.  `typeof v === 'object'` holds for objects and arrays
(`null` is excluded by the preceding truthiness check); on an array the
own keys are the canonical indices in range and `"length"`. -/
def objGet : JSVal → String → Option JSVal
  | .obj fields, key => mapGet fields key
  | .arr xs, key =>
    if key = "length" then some (.number (.val xs.length))
    else
      match toArrayIndex key with
      | some i => xs.get? i
      | none => none
  | _, _ => none

/-- The loop of `getPropertyValue`: walk the split path, returning
`undefined` as soon as the current value is not a structured object with
the segment as a key. -/
def walkPath : JSVal → List String → JSVal
  | v, [] => v
  | v, part :: rest =>
    match objGet v part with
    | some v' => walkPath v' rest
    | none => JSVal.undef

/-- `getPropertyValue(device, property)`: with no (or a falsy, i.e.
empty-string) property the full telemetry value; otherwise walk the
dot-split path. -/
def getPropertyValue (device : DeviceData) (property : Option String) : JSVal :=
  match property with
  | none => device.value
  | some p => if p = "" then device.value else walkPath device.value (jsSplit p '.')

/-!  The operator table (`compareValues`, lines 245-268). -/

/-- `compareValues(actual, operator, expected, secondExpected)`. -/
def compareValues (actual : JSVal) (operator : String) (expected : JSVal)
    (secondExpected : JSVal) : Bool :=
  if operator = "=" then strictEq actual expected
  else if operator = "!=" then !strictEq actual expected
  else if operator = ">" then numLt (toNumber expected) (toNumber actual)
  else if operator = "<" then numLt (toNumber actual) (toNumber expected)
  else if operator = ">=" then numLe (toNumber expected) (toNumber actual)
  else if operator = "<=" then numLe (toNumber actual) (toNumber expected)
  else if operator = "contains" then jsIncludes (jsToString actual) (jsToString expected)
  else if operator = "between" then
    numLe (toNumber expected) (toNumber actual) && numLe (toNumber actual) (toNumber secondExpected)
  else if operator = "in" then
    match expected with
    | .arr xs => xs.any (fun e => sameValueZero e actual)
    | _ => false
  else false

/-- Extract a condition's target property from a device and compare. -/
def condCompare (device : DeviceData) (c : Condition) : Bool :=
  compareValues (getPropertyValue device c.property) c.operator c.value c.secondValue

/-!  Single-condition evaluation (`evaluateCondition` and its helpers,
lines 151-225).  Only a `time` condition can throw (a non-string value
under the `time` property has no `.split` method), so the helpers that
cannot throw return `Bool` and the dispatch returns `Except JsError Bool`. -/

/-- `evaluateDeviceState`: `condition.deviceId || triggerDevice.deviceId`
(the empty string is falsy), look the device up, compare. -/
def evaluateDeviceState (devices : List (String × DeviceData)) (c : Condition)
    (triggerDevice : DeviceData) : Bool :=
  let deviceId :=
    match c.deviceId with
    | some d => if d = "" then triggerDevice.deviceId else d
    | none => triggerDevice.deviceId
  match mapGet devices deviceId with
  | none => false
  | some device => condCompare device c

/-- `evaluateSensorValue`: a truthy `deviceId` differing from the trigger
is a cross-device check (missing device is non-matching); otherwise the
trigger's own data is compared. -/
def evaluateSensorValue (devices : List (String × DeviceData)) (c : Condition)
    (triggerDevice : DeviceData) : Bool :=
  match c.deviceId with
  | some d =>
    if d ≠ "" && d ≠ triggerDevice.deviceId then
      match mapGet devices d with
      | none => false
      | some device => condCompare device c
    else condCompare triggerDevice c
  | none => condCompare triggerDevice c

/-- Element `i` of `value.split(':').map(Number)`; a missing element is
`undefined`, which the subsequent arithmetic turns into NaN. -/
def splitPartNum (parts : List JSNum) (i : ℕ) : JSNum :=
  (parts.get? i).getD .nan

/-- `a * b` on JavaScript numbers (NaN-propagating). -/
def numMul : JSNum → JSNum → JSNum
  | .val a, .val b => .val (ratMul a b)
  | _, _ => .nan

/-- `a + b` on JavaScript numbers (NaN-propagating). -/
def numAdd : JSNum → JSNum → JSNum
  | .val a, .val b => .val (ratAdd a b)
  | _, _ => .nan

/-- `evaluateTime` (lines 192-212).  Under the `time` property the code
calls `condition.value.split(':')`, which throws a TypeError when the
value is not a string. -/
def evaluateTime (clock : Clock) (c : Condition) : Except JsError Bool :=
  let currentTime : ℚ := ((clock.hour * 60 + clock.minute : ℕ) : ℚ)
  match c.property with
  | some p =>
    if p = "hour" then
      .ok (compareValues (.number (.val (clock.hour : ℚ))) c.operator c.value c.secondValue)
    else if p = "time" then
      match c.value with
      | .str s =>
        let parts := (jsSplit s ':').map parseNumber
        let targetTime := numAdd (numMul (splitPartNum parts 0) (.val 60)) (splitPartNum parts 1)
        .ok (compareValues (.number (.val currentTime)) c.operator (.number targetTime) c.secondValue)
      | _ => .error (.typeError "condition.value.split is not a function")
    else if p = "dayOfWeek" then
      .ok (compareValues (.number (.val (clock.dayOfWeek : ℚ))) c.operator c.value c.secondValue)
    else .ok false
  | none => .ok false

/-- `evaluateDeviceOffline`: a device absent from the table (including a
lookup under an absent `deviceId`) counts as offline. -/
def evaluateDeviceOffline (devices : List (String × DeviceData)) (c : Condition) : Bool :=
  let device :=
    match c.deviceId with
    | some d => mapGet devices d
    | none => none
  match device with
  | none => true
  | some dev => !dev.online

/-- `evaluateCondition`: dispatch on the condition's `type`; unknown tags
and the `composite` placeholder are non-matching. -/
def evaluateCondition (devices : List (String × DeviceData)) (clock : Clock)
    (c : Condition) (triggerDevice : DeviceData) : Except JsError Bool :=
  if c.type = "device_state" then .ok (evaluateDeviceState devices c triggerDevice)
  else if c.type = "sensor_value" then .ok (evaluateSensorValue devices c triggerDevice)
  else if c.type = "time" then evaluateTime clock c
  else if c.type = "device_offline" then .ok (evaluateDeviceOffline devices c)
  else if c.type = "composite" then .ok false
  else .ok false

/-- The loop of `evaluateConditions`: `prev` is `conditions[i-1]`, whose
`logicalOperator` governs how condition `i`'s result joins the running
result (`OR`, any other or absent value meaning `AND`).  Each condition
is evaluated even when the running result already determines the answer,
so a later throwing condition still throws. -/
def evalConditionChain (devices : List (String × DeviceData)) (clock : Clock)
    (triggerDevice : DeviceData) (prev : Condition) (acc : Bool) :
    List Condition → Except JsError Bool
  | [] => .ok acc
  | c :: rest => do
    let current ← evaluateCondition devices clock c triggerDevice
    let acc' := if prev.logicalOperator = some "OR" then acc || current else acc && current
    evalConditionChain devices clock triggerDevice c acc' rest

/-- `evaluateConditions` (lines 131-149): an empty chain is `false`;
otherwise fold the chain from condition 0. -/
def evaluateConditions (devices : List (String × DeviceData)) (clock : Clock)
    (conditions : List Condition) (triggerDevice : DeviceData) : Except JsError Bool :=
  match conditions with
  | [] => .ok false
  | c0 :: rest => do
    let r0 ← evaluateCondition devices clock c0 triggerDevice
    evalConditionChain devices clock triggerDevice c0 r0 rest

/-!  Cooldown tracking (`isInCooldown`, lines 270-278). -/

/-- `!rule?.cooldownMs`: truthy test of the optional number — absent,
`0` and NaN are all falsy. -/
def cooldownFalsy : Option JSNum → Bool
  | none => true
  | some .nan => true
  | some (.val q) => q = 0

/-- `isInCooldown(ruleId)`: the rule is re-fetched from the store by id;
a falsy `cooldownMs` or no recorded execution means no cooldown, otherwise
`Date.now() - last < cooldownMs`. -/
def isInCooldown (st : EngineState) (nowMs : ℕ) (ruleId : String) : Bool :=
  match mapGet st.rules ruleId with
  | none => false
  | some rule =>
    if cooldownFalsy rule.cooldownMs then false
    else
      match mapGet st.lastExecution ruleId with
      | none => false
      | some last =>
        match rule.cooldownMs with
        | some cd => numLt (.val (((nowMs : ℤ) - (last : ℤ) : ℤ) : ℚ)) cd
        | none => false

/-!  Priority ordering.  `getAllRules` and the dispatcher sort with the
comparator `(a, b) => b.priority - a.priority` using JavaScript's stable
`Array.prototype.sort`.  A stable sort under this (total-preorder)
comparator is uniquely determined, so it is embedded as a stable insertion
sort: an element moves past exactly the strictly-greater-priority elements
before it. -/

/-- Insert a rule into a descending-priority list, after every element of
greater-or-equal priority that precedes it (stability). -/
def insertByPriority (r : Rule) : List Rule → List Rule
  | [] => [r]
  | x :: xs =>
    if x.priority > r.priority then x :: insertByPriority r xs else r :: x :: xs

/-- Stable sort by descending priority. -/
def sortByPriorityDesc (rs : List Rule) : List Rule :=
  rs.foldr insertByPriority []

/-!  The evaluation dispatcher (`evaluateRules` / `executeRule`,
lines 115-129 and 280-300) and the public ingress methods. -/

/-- Invoke every registered callback with the same context, each inside
`try`/`catch`: a throwing callback yields an extra error event and the
loop continues. -/
def runCallbacks (ctx : RuleExecutionContext) (actions : List Action) :
    List Callback → ℕ → List Event
  | [], _ => []
  | cb :: rest, i =>
    match cb ctx actions with
    | .ok _ => .callbackInvoked i ctx :: runCallbacks ctx actions rest (i + 1)
    | .error _ =>
      .callbackInvoked i ctx :: .callbackError i ctx :: runCallbacks ctx actions rest (i + 1)

/-- The `RuleExecutionContext` built by `executeRule`: the firing rule,
the trigger, a snapshot of the device table and the current time. -/
def firingContext (st : EngineState) (clock : Clock) (rule : Rule)
    (triggerDevice : DeviceData) : RuleExecutionContext :=
  { rule := rule, triggerDevice := triggerDevice, allDevices := st.devices,
    timestamp := clock.nowMs }

/-- `executeRule`: record the execution timestamp first, then build the
context (with a snapshot of the device table) and invoke the callbacks. -/
def executeRule (st : EngineState) (clock : Clock) (rule : Rule)
    (triggerDevice : DeviceData) : EngineState × List Event :=
  let st' := { st with lastExecution := mapSet st.lastExecution rule.id clock.nowMs }
  let ctx := firingContext st' clock rule triggerDevice
  (st', .ruleFired rule clock.nowMs :: runCallbacks ctx rule.actions st'.executionCallbacks 0)

/-- The dispatch loop over the pre-sorted enabled rules: skip rules in
cooldown, fire on a matching chain; a thrown condition error aborts the
loop but the side effects so far persist. -/
def evalRulesLoop (clock : Clock) (triggerDevice : DeviceData) :
    List Rule → EngineState → RunResult
  | [], st => ⟨st, [], none⟩
  | rule :: rest, st =>
    if isInCooldown st clock.nowMs rule.id then
      evalRulesLoop clock triggerDevice rest st
    else
      match evaluateConditions st.devices clock rule.conditions triggerDevice with
      | .error e => ⟨st, [], some e⟩
      | .ok false => evalRulesLoop clock triggerDevice rest st
      | .ok true =>
        let ex := executeRule st clock rule triggerDevice
        let r := evalRulesLoop clock triggerDevice rest ex.1
        ⟨r.state, ex.2 ++ r.events, r.error⟩

/-- `evaluateRules`: snapshot the enabled rules sorted by descending
priority, then run the dispatch loop. -/
def evaluateRules (st : EngineState) (clock : Clock) (triggerDevice : DeviceData) :
    RunResult :=
  let enabledRules := sortByPriorityDesc ((mapValuesList st.rules).filter (fun r => r.enabled))
  evalRulesLoop clock triggerDevice enabledRules st

/-- `updateDeviceData`: store the update under its device id with the
timestamp overwritten to now, then evaluate the rules against the
caller's record (the code passes the original object, whose `timestamp`
field is the caller's, to `evaluateRules`). -/
def updateDeviceData (st : EngineState) (clock : Clock) (deviceData : DeviceData) :
    RunResult :=
  let stored := { deviceData with timestamp := clock.nowMs }
  let st' := { st with devices := mapSet st.devices deviceData.deviceId stored }
  evaluateRules st' clock deviceData

/-- `markDeviceOffline`: a no-op for an unknown device; otherwise flip
`online`, stamp the time and evaluate the rules with the device as
trigger. -/
def markDeviceOffline (st : EngineState) (clock : Clock) (deviceId : String) :
    RunResult :=
  match mapGet st.devices deviceId with
  | none => ⟨st, [], none⟩
  | some device =>
    let device' := { device with online := false, timestamp := clock.nowMs }
    let st' := { st with devices := mapSet st.devices deviceId device' }
    evaluateRules st' clock device'

/-!  The rule store (lines 60-90). -/

/-- `addRule`: store under the rule's own id (overwriting). -/
def addRule (st : EngineState) (rule : Rule) : EngineState :=
  { st with rules := mapSet st.rules rule.id rule }

/-- `removeRule`. -/
def removeRule (st : EngineState) (ruleId : String) : EngineState × Bool :=
  let r := mapDelete st.rules ruleId
  ({ st with rules := r.1 }, r.2)

/-- `getRule`. -/
def getRule (st : EngineState) (ruleId : String) : Option Rule :=
  mapGet st.rules ruleId

/-- `getAllRules`: all stored rules, stably sorted by descending priority. -/
def getAllRules (st : EngineState) : List Rule :=
  sortByPriorityDesc (mapValuesList st.rules)

/-- A `Partial<Rule>`: the fields present in an `updates` object.  (An
explicitly-`undefined` supplied field is not distinguished from an absent
one; no claim exercises that corner.) -/
structure RuleUpdates : Type where
  id : Option String
  name : Option String
  description : Option String
  enabled : Option Bool
  conditions : Option (List Condition)
  actions : Option (List Action)
  cooldownMs : Option (Option JSNum)
  priority : Option ℚ

/-- The spread `{ ...rule, ...updates }`: each field supplied by
`updates` overwrites the rule's, including `id`. -/
def mergeRule (rule : Rule) (u : RuleUpdates) : Rule :=
  { id := u.id.getD rule.id
    name := u.name.getD rule.name
    description := u.description.getD rule.description
    enabled := u.enabled.getD rule.enabled
    conditions := u.conditions.getD rule.conditions
    actions := u.actions.getD rule.actions
    cooldownMs := u.cooldownMs.getD rule.cooldownMs
    priority := u.priority.getD rule.priority }

/-- An `updates` object with no fields supplied. -/
def emptyUpdates : RuleUpdates :=
  ⟨none, none, none, none, none, none, none, none⟩

/-- `updateRule(ruleId, updates)`: failure on a missing id, otherwise the
merge is stored back under the same key. -/
def updateRule (st : EngineState) (ruleId : String) (u : RuleUpdates) :
    EngineState × Bool :=
  match mapGet st.rules ruleId with
  | none => (st, false)
  | some rule =>
    ({ st with rules := mapSet st.rules ruleId (mergeRule rule u) }, true)

/-- `enableRule`. -/
def enableRule (st : EngineState) (ruleId : String) : EngineState × Bool :=
  updateRule st ruleId { emptyUpdates with enabled := some true }

/-- `disableRule`. -/
def disableRule (st : EngineState) (ruleId : String) : EngineState × Bool :=
  updateRule st ruleId { emptyUpdates with enabled := some false }

/-!  The seeded default rules (`loadDefaultRules`, lines 302-480). -/

/-- An action with only a `type` and a `command`. -/
def commandAction (cmd : JSVal) : Action :=
  ⟨"device_command", none, cmd, none, none, none, none⟩

/-- A notification action. -/
def notifyAction (msg severity : String) : Action :=
  ⟨"notification", none, .undef, some msg, none, none, some severity⟩

/-- Seeded rule `motion-lights-on`. -/
def motionLightsOnRule : Rule :=
  { id := "motion-lights-on"
    name := "Turn on lights when motion detected"
    description := "Automatically turn on lights in a room when motion is detected"
    enabled := true
    priority := 100
    cooldownMs := some (.val 5000)
    conditions := [⟨"sensor_value", none, some "detected", "=", .boolean true, .undef, none⟩]
    actions := [commandAction (.obj [("command", .str "turnOn")])] }

/-- Seeded rule `motion-lights-off`. -/
def motionLightsOffRule : Rule :=
  { id := "motion-lights-off"
    name := "Turn off lights when no motion"
    description := "Turn off lights after motion clears and some time has passed"
    enabled := true
    priority := 90
    cooldownMs := some (.val 30000)
    conditions := [⟨"sensor_value", none, some "detected", "=", .boolean false, .undef, none⟩]
    actions :=
      [⟨"delay", none, .undef, none, some (.val 60000), none, none⟩,
       commandAction (.obj [("command", .str "turnOff")])] }

/-- Seeded rule `temperature-alert-high`. -/
def temperatureAlertHighRule : Rule :=
  { id := "temperature-alert-high"
    name := "High temperature alert"
    description := "Alert when temperature exceeds threshold"
    enabled := true
    priority := 200
    cooldownMs := some (.val 300000)
    conditions := [⟨"sensor_value", none, some "value.value", ">", .number (.val 30), .undef, none⟩]
    actions := [notifyAction "High temperature detected" "high"] }

/-- Seeded rule `door-open-night-alert`: a door-state condition joined by
AND with `hour between 22 and 6`. -/
def doorOpenNightAlertRule : Rule :=
  { id := "door-open-night-alert"
    name := "Door opened at night alert"
    description := "Alert when doors are opened during night hours"
    enabled := true
    priority := 300
    cooldownMs := some (.val 60000)
    conditions :=
      [⟨"sensor_value", none, some "state", "=", .str "open", .undef, some "AND"⟩,
       ⟨"time", none, some "hour", "between", .number (.val 22), .number (.val 6), none⟩]
    actions :=
      [notifyAction "Door opened during night hours" "high",
       ⟨"log", none, .undef, some "Security alert: Night door opening", none, none, none⟩] }

/-- Seeded rule `energy-saving-lights`. -/
def energySavingLightsRule : Rule :=
  { id := "energy-saving-lights"
    name := "Energy saving mode"
    description := "Dim lights when energy consumption is high"
    enabled := true
    priority := 50
    cooldownMs := some (.val 120000)
    conditions :=
      [⟨"sensor_value", none, some "instantPower", ">", .number (.val 3000), .undef, none⟩]
    actions :=
      [commandAction (.obj [("command", .str "setBrightness"), ("brightness", .number (.val 50))]),
       notifyAction "Energy saving mode activated - lights dimmed" "low"] }

/-- Seeded rule `welcome-home`. -/
def welcomeHomeRule : Rule :=
  { id := "welcome-home"
    name := "Welcome home automation"
    description := "Turn on lights when front door opens during evening"
    enabled := true
    priority := 150
    cooldownMs := some (.val 300000)
    conditions :=
      [⟨"device_state", none, some "state", "=", .str "open", .undef, some "AND"⟩,
       ⟨"time", none, some "hour", "between", .number (.val 17), .number (.val 22), none⟩]
    actions :=
      [commandAction (.obj [("command", .str "turnOn")]),
       commandAction (.obj [("command", .str "preset"), ("preset", .str "bright")]),
       notifyAction "Welcome home! Lights turned on." "low"] }

/-- The default rule list, in seeding order. -/
def defaultRules : List Rule :=
  [motionLightsOnRule, motionLightsOffRule, temperatureAlertHighRule,
   doorOpenNightAlertRule, energySavingLightsRule, welcomeHomeRule]

/-- `loadDefaultRules`: add each default rule in order. -/
def loadDefaultRules (st : EngineState) : EngineState :=
  defaultRules.foldl addRule st

/-- `new RuleEngine()`: empty state seeded with the default rules. -/
def newRuleEngine : EngineState :=
  loadDefaultRules { rules := [], devices := [], lastExecution := [], executionCallbacks := [] }

/-!  The specification's description of chain evaluation, used to compare
against the implementation in claim C1. -/

/-- Modelled from the spec: combine the running result with the next
condition's result using the predecessor's `logicalOperator`, defaulting
to AND when it is unspecified (or anything other than `OR`). -/
def specCombine (op : Option String) (acc current : Bool) : Bool :=
  if op = some "OR" then acc || current else acc && current

/-- Modelled from the spec: left fold of the chain, starting from
condition 0's result, where each pair carries the predecessor's
`logicalOperator` and the current condition's result. -/
def specChainResult (first : Bool) : List (Option String × Bool) → Bool
  | [] => first
  | (op, r) :: rest => specChainResult (specCombine op first r) rest

/-- Evaluate each condition of a list independently, in order,
propagating the first thrown error (the same order and error behaviour as
`evaluateConditions`). -/
def evalCondList (devices : List (String × DeviceData)) (clock : Clock)
    (triggerDevice : DeviceData) : List Condition → Except JsError (List Bool)
  | [] => .ok []
  | c :: rest => do
    let r ← evaluateCondition devices clock c triggerDevice
    let rs ← evalCondList devices clock triggerDevice rest
    pure (r :: rs)

/-!  Helper lemmas about the dispatch loop. -/

/-- Whether an event is a rule firing. -/
def isFiredEvent : Event → Bool
  | .ruleFired _ _ => true
  | _ => false

/-!  Concrete inputs used by the claim witnesses. -/

/-- A telemetry record used in concrete runs. -/
def sampleTrigger : DeviceData :=
  ⟨"dev-1", "sensor", "room-1", "Device 1", "home/room-1/dev-1",
    .obj [("detected", .boolean true)], 0, true⟩

/-- A fixed wall clock (late evening). -/
def sampleClock : Clock := ⟨1000, 23, 15, 2⟩

/-- A rule with an empty condition list. -/
def emptyCondRule : Rule :=
  ⟨"empty-rule", "Empty", "No conditions", true, [], [], none, 500⟩

/-- A store holding only the empty-condition rule. -/
def emptyCondState : EngineState :=
  ⟨[("empty-rule", emptyCondRule)], [], [], []⟩

/-- The trigger used in the C9 witness: an open door at night. -/
def doorTrigger : DeviceData :=
  ⟨"door-1", "door-sensor", "hall", "Front door", "home/hall/door-1",
    .obj [("state", .str "open")], 0, true⟩

/-- A rule with an explicit zero cooldown. -/
def zeroCooldownRule : Rule :=
  ⟨"zero-cd", "Zero cooldown", "Never throttled", true,
    [⟨"device_offline", some "ghost", none, "=", .undef, .undef, none⟩], [],
    some (.val 0), 10⟩

/-- A store holding only the zero-cooldown rule. -/
def zeroCooldownState : EngineState :=
  ⟨[("zero-cd", zeroCooldownRule)], [], [], []⟩

/-- A `time` condition whose `value` is a number, not an `"HH:MM"` string. -/
def badTimeCondition : Condition :=
  ⟨"time", none, some "time", "=", .number (.val 42), .undef, none⟩

/-- An enabled rule carrying the malformed time condition. -/
def badTimeRule : Rule :=
  ⟨"bad-time", "Bad time rule", "time condition with a numeric value", true,
    [badTimeCondition], [], none, 100⟩

/-- A store holding the malformed rule and one known device. -/
def badTimeState : EngineState :=
  ⟨[("bad-time", badTimeRule)], [("dev-1", sampleTrigger)], [], []⟩

/-- A stored rule and an `updates` object carrying an `id` field. -/
def c6Rule : Rule := ⟨"r", "Name", "Desc", true, [], [], none, 1⟩

/-- A store holding only `c6Rule` under its id. -/
def c6State : EngineState := ⟨[("r", c6Rule)], [], [], []⟩

/-- An update that only supplies `id`. -/
def c6IdUpdates : RuleUpdates := ⟨some "x", none, none, none, none, none, none, none⟩

/-- An update that only supplies `name`. -/
def c6NameUpdates : RuleUpdates :=
  ⟨none, some "Renamed", none, none, none, none, none, none⟩

/-- A condition of the reserved `composite` type (always false). -/
def compositeCond (lo : Option String) : Condition :=
  ⟨"composite", none, none, "=", .undef, .undef, lo⟩

/-- A `device_offline` condition on an unknown device (always true when
the device table is empty). -/
def ghostOfflineCond (lo : Option String) : Condition :=
  ⟨"device_offline", some "ghost", none, "=", .undef, .undef, lo⟩

/-- A callback that always throws. -/
def throwingCallback : Callback := fun _ _ => .error "boom"

/-- A callback that always succeeds. -/
def okCallback : Callback := fun _ _ => .ok ()

/-- A rule that always matches (unknown device counts as offline). -/
def c7Rule : Rule :=
  ⟨"always", "Always fires", "ghost is always offline", true,
    [ghostOfflineCond none], [], none, 10⟩

/-- A store with the always-matching rule, a throwing callback registered
before a succeeding one. -/
def c7State : EngineState :=
  ⟨[("always", c7Rule)], [], [], [throwingCallback, okCallback]⟩

/-- The context of the single firing in the C7 witness run. -/
def c7Ctx : RuleExecutionContext :=
  firingContext ⟨[("always", c7Rule)], [], [("always", 1000)],
    [throwingCallback, okCallback]⟩ sampleClock c7Rule sampleTrigger

/-- A rule with a 5-second cooldown that always matches. -/
def c3Rule : Rule :=
  ⟨"cd", "Cooldown rule", "fires then cools down", true,
    [ghostOfflineCond none], [], some (.val 5000), 10⟩

/-- A store holding only the cooldown rule. -/
def c3State : EngineState := ⟨[("cd", c3Rule)], [], [], []⟩

/-- The clock at the first firing. -/
def c3Clock1 : Clock := ⟨1000, 12, 0, 0⟩

/-- The clock one second later, inside the cooldown window. -/
def c3Clock2 : Clock := ⟨2000, 12, 0, 0⟩

theorem ratAdd_eq (a b : ℚ) : ratAdd a b = a + b :=
  (Rat.add_def' a b).symm

theorem ratMul_eq (a b : ℚ) : ratMul a b = a * b := by
  rw [ratMul, Rat.mul_def, Rat.normalize_eq_mkRat]

/-!  Helper lemmas about the insertion-ordered map. -/

theorem mapGet_mapSet_self {α : Type} (m : List (String × α)) (k : String) (v : α) :
    mapGet (mapSet m k v) k = some v := by
  induction m with
  | nil => simp [mapGet, mapSet]
  | cons hd tl ih =>
    obtain ⟨k', v'⟩ := hd
    by_cases h : k' = k
    · simp [mapGet, mapSet, h]
    · simp [mapGet, mapSet, h, ih]

theorem mapGet_mapSet_ne {α : Type} (m : List (String × α)) (k k' : String) (v : α)
    (h : k ≠ k') : mapGet (mapSet m k v) k' = mapGet m k' := by
  induction m with
  | nil => simp [mapGet, mapSet, h]
  | cons hd tl ih =>
    obtain ⟨k₀, v₀⟩ := hd
    by_cases h₀ : k₀ = k
    · subst h₀
      simp [mapGet, mapSet, h]
    · simp only [mapSet, if_neg h₀]
      by_cases h₁ : k₀ = k'
      · simp [mapGet, h₁]
      · simp [mapGet, h₁, ih]

theorem mem_mapSet {α : Type} (m : List (String × α)) (k : String) (v : α)
    (p : String × α) (hp : p ∈ mapSet m k v) : p ∈ m ∨ p = (k, v) := by
  induction m with
  | nil => simpa [mapSet] using hp
  | cons hd tl ih =>
    obtain ⟨k₀, v₀⟩ := hd
    by_cases h₀ : k₀ = k
    · simp only [mapSet, if_pos h₀] at hp
      rcases List.mem_cons.mp hp with h | h
      · right; exact h
      · left; exact List.mem_cons_of_mem _ h
    · simp only [mapSet, if_neg h₀] at hp
      rcases List.mem_cons.mp hp with h | h
      · left; exact h ▸ List.mem_cons_self _ _
      · rcases ih h with h' | h'
        · left; exact List.mem_cons_of_mem _ h'
        · right; exact h'

/-!  Helper lemmas about the stable descending sort. -/

theorem insertByPriority_perm (r : Rule) (l : List Rule) :
    (insertByPriority r l).Perm (r :: l) := by
  induction l with
  | nil => simp [insertByPriority]
  | cons x xs ih =>
    by_cases h : x.priority > r.priority
    · simp only [insertByPriority, if_pos h]
      exact (ih.cons x).trans (List.Perm.swap r x xs)
    · simp [insertByPriority, if_neg h]

theorem sortByPriorityDesc_perm (l : List Rule) :
    (sortByPriorityDesc l).Perm l := by
  induction l with
  | nil => simp [sortByPriorityDesc]
  | cons x xs ih =>
    simp only [sortByPriorityDesc, List.foldr_cons]
    exact (insertByPriority_perm x _).trans (ih.cons x)

theorem insertByPriority_pairwise (r : Rule) (l : List Rule)
    (h : l.Pairwise (fun a b => b.priority ≤ a.priority)) :
    (insertByPriority r l).Pairwise (fun a b => b.priority ≤ a.priority) := by
  induction l with
  | nil => simp [insertByPriority]
  | cons x xs ih =>
    rcases List.pairwise_cons.mp h with ⟨hx, hxs⟩
    by_cases hgt : x.priority > r.priority
    · simp only [insertByPriority, if_pos hgt]
      refine List.pairwise_cons.mpr ⟨?_, ih hxs⟩
      intro b hb
      rcases List.mem_cons.mp ((insertByPriority_perm r xs).mem_iff.mp hb) with h' | h'
      · exact h' ▸ le_of_lt hgt
      · exact hx b h'
    · simp only [insertByPriority, if_neg hgt]
      push_neg at hgt
      refine List.pairwise_cons.mpr ⟨?_, h⟩
      intro b hb
      rcases List.mem_cons.mp hb with h' | h'
      · exact h' ▸ hgt
      · exact le_trans (hx b h') hgt

theorem sortByPriorityDesc_pairwise (l : List Rule) :
    (sortByPriorityDesc l).Pairwise (fun a b => b.priority ≤ a.priority) := by
  induction l with
  | nil => simp [sortByPriorityDesc]
  | cons x xs ih =>
    exact insertByPriority_pairwise x _ ih

theorem insertByPriority_filter (r : Rule) (l : List Rule) (p : ℚ)
    (h : l.Pairwise (fun a b => b.priority ≤ a.priority)) :
    (insertByPriority r l).filter (fun x => decide (x.priority = p)) =
      if r.priority = p then r :: l.filter (fun x => decide (x.priority = p))
      else l.filter (fun x => decide (x.priority = p)) := by
  induction l with
  | nil =>
    by_cases hp : r.priority = p <;> simp [insertByPriority, List.filter, hp]
  | cons x xs ih =>
    rcases List.pairwise_cons.mp h with ⟨hx, hxs⟩
    by_cases hgt : x.priority > r.priority
    · simp only [insertByPriority, if_pos hgt]
      by_cases hp : r.priority = p
      · have hxp : ¬(x.priority = p) := by
          intro hxp
          exact absurd (hxp.trans hp.symm ▸ hgt) (lt_irrefl _)
        simp [List.filter, hp, hxp, ih hxs]
      · by_cases hxp : x.priority = p <;> simp [List.filter, hp, hxp, ih hxs]
    · simp only [insertByPriority, if_neg hgt]
      by_cases hp : r.priority = p <;> by_cases hxp : x.priority = p <;>
        simp [List.filter, hp, hxp]

theorem sortByPriorityDesc_filter (l : List Rule) (p : ℚ) :
    (sortByPriorityDesc l).filter (fun x => decide (x.priority = p)) =
      l.filter (fun x => decide (x.priority = p)) := by
  induction l with
  | nil => simp [sortByPriorityDesc]
  | cons x xs ih =>
    have hstep : sortByPriorityDesc (x :: xs) = insertByPriority x (sortByPriorityDesc xs) := rfl
    rw [hstep, insertByPriority_filter x _ p (sortByPriorityDesc_pairwise xs)]
    by_cases hp : x.priority = p <;> simp [List.filter, hp, ih]

theorem mem_runCallbacks (ctx : RuleExecutionContext) (actions : List Action) :
    ∀ (cbs : List Callback) (i : ℕ) (ev : Event), ev ∈ runCallbacks ctx actions cbs i →
      (∃ j, ev = .callbackInvoked j ctx) ∨ (∃ j, ev = .callbackError j ctx) := by
  intro cbs
  induction cbs with
  | nil => intro i ev hev; simp [runCallbacks] at hev
  | cons cb rest ih =>
    intro i ev hev
    unfold runCallbacks at hev
    rcases hcb : cb ctx actions with e | u <;> rw [hcb] at hev
    · rcases List.mem_cons.mp hev with h | h
      · exact Or.inl ⟨i, h⟩
      · rcases List.mem_cons.mp h with h' | h'
        · exact Or.inr ⟨i, h'⟩
        · exact ih (i + 1) ev h'
    · rcases List.mem_cons.mp hev with h | h
      · exact Or.inl ⟨i, h⟩
      · exact ih (i + 1) ev h

theorem runCallbacks_invokes_all (ctx : RuleExecutionContext) (actions : List Action) :
    ∀ (cbs : List Callback) (i j : ℕ), j < cbs.length →
      Event.callbackInvoked (i + j) ctx ∈ runCallbacks ctx actions cbs i := by
  intro cbs
  induction cbs with
  | nil => intro i j hj; simp at hj
  | cons cb rest ih =>
    intro i j hj
    unfold runCallbacks
    rcases hcb : cb ctx actions with e | u
    · match j with
      | 0 => simp
      | j' + 1 =>
        have := ih (i + 1) j' (by simpa using Nat.lt_of_succ_lt_succ hj)
        refine List.mem_cons_of_mem _ (List.mem_cons_of_mem _ ?_)
        have harith : i + 1 + j' = i + (j' + 1) := by omega
        rw [harith] at this
        exact this
    · match j with
      | 0 => simp
      | j' + 1 =>
        have := ih (i + 1) j' (by simpa using Nat.lt_of_succ_lt_succ hj)
        refine List.mem_cons_of_mem _ ?_
        have harith : i + 1 + j' = i + (j' + 1) := by omega
        rw [harith] at this
        exact this

theorem fired_mem (clock : Clock) (trig : DeviceData) :
    ∀ (l : List Rule) (st : EngineState) (r : Rule) (t : ℕ),
      Event.ruleFired r t ∈ (evalRulesLoop clock trig l st).events →
      r ∈ l ∧ t = clock.nowMs ∧
        evaluateConditions st.devices clock r.conditions trig = .ok true := by
  intro l
  induction l with
  | nil => intro st r t h; simp [evalRulesLoop] at h
  | cons rule rest ih =>
    intro st r t h
    unfold evalRulesLoop at h
    by_cases hcd : isInCooldown st clock.nowMs rule.id
    · rw [if_pos hcd] at h
      obtain ⟨hm, ht, hc⟩ := ih st r t h
      exact ⟨List.mem_cons_of_mem _ hm, ht, hc⟩
    · rw [if_neg hcd] at h
      rcases hev : evaluateConditions st.devices clock rule.conditions trig with e | b
      · rw [hev] at h
        simp at h
      · rw [hev] at h
        cases b with
        | false =>
          obtain ⟨hm, ht, hc⟩ := ih st r t h
          exact ⟨List.mem_cons_of_mem _ hm, ht, hc⟩
        | true =>
          simp only at h
          rcases List.mem_append.mp h with h' | h'
          · rcases List.mem_cons.mp h' with h'' | h''
            · have hre : r = rule ∧ t = clock.nowMs := by
                injection h'' with a b
                exact ⟨a, b⟩
              refine ⟨hre.1 ▸ List.mem_cons_self _ _, hre.2, ?_⟩
              rw [hre.1]
              exact hev
            · rcases mem_runCallbacks _ _ _ _ _ h'' with ⟨j, hj⟩ | ⟨j, hj⟩ <;> simp at hj
          · obtain ⟨hm, ht, hc⟩ := ih _ r t h'
            refine ⟨List.mem_cons_of_mem _ hm, ht, ?_⟩
            exact hc

theorem callbackInvoked_mem (clock : Clock) (trig : DeviceData) :
    ∀ (l : List Rule) (st : EngineState) (j : ℕ) (ctx : RuleExecutionContext),
      Event.callbackInvoked j ctx ∈ (evalRulesLoop clock trig l st).events →
      ctx.rule ∈ l ∧ ctx.timestamp = clock.nowMs ∧
        evaluateConditions st.devices clock ctx.rule.conditions trig = .ok true := by
  intro l
  induction l with
  | nil => intro st j ctx h; simp [evalRulesLoop] at h
  | cons rule rest ih =>
    intro st j ctx h
    unfold evalRulesLoop at h
    by_cases hcd : isInCooldown st clock.nowMs rule.id
    · rw [if_pos hcd] at h
      obtain ⟨hm, ht, hc⟩ := ih st j ctx h
      exact ⟨List.mem_cons_of_mem _ hm, ht, hc⟩
    · rw [if_neg hcd] at h
      rcases hev : evaluateConditions st.devices clock rule.conditions trig with e | b
      · rw [hev] at h
        simp at h
      · rw [hev] at h
        cases b with
        | false =>
          obtain ⟨hm, ht, hc⟩ := ih st j ctx h
          exact ⟨List.mem_cons_of_mem _ hm, ht, hc⟩
        | true =>
          simp only at h
          rcases List.mem_append.mp h with h' | h'
          · rcases List.mem_cons.mp h' with h'' | h''
            · simp at h''
            · rcases mem_runCallbacks _ _ _ _ _ h'' with ⟨j', hj⟩ | ⟨j', hj⟩
              · injection hj with a b
                subst b
                exact ⟨List.mem_cons_self _ _, rfl, hev⟩
              · simp at hj
          · obtain ⟨hm, ht, hc⟩ := ih _ j ctx h'
            exact ⟨List.mem_cons_of_mem _ hm, ht, hc⟩

theorem isInCooldown_congr (st st' : EngineState) (now : ℕ) (rid : String)
    (hr : st'.rules = st.rules)
    (hl : mapGet st'.lastExecution rid = mapGet st.lastExecution rid) :
    isInCooldown st' now rid = isInCooldown st now rid := by
  unfold isInCooldown
  rw [hr, hl]

theorem fired_not_inCooldown (clock : Clock) (trig : DeviceData) :
    ∀ (l : List Rule) (st : EngineState) (r : Rule) (t : ℕ),
      l.Pairwise (fun a b => a.id ≠ b.id) →
      Event.ruleFired r t ∈ (evalRulesLoop clock trig l st).events →
      isInCooldown st clock.nowMs r.id = false := by
  intro l
  induction l with
  | nil => intro st r t hp h; simp [evalRulesLoop] at h
  | cons rule rest ih =>
    intro st r t hp h
    rcases List.pairwise_cons.mp hp with ⟨hhead, htail⟩
    unfold evalRulesLoop at h
    by_cases hcd : isInCooldown st clock.nowMs rule.id
    · rw [if_pos hcd] at h
      exact ih st r t htail h
    · rw [if_neg hcd] at h
      rcases hev : evaluateConditions st.devices clock rule.conditions trig with e | b
      · rw [hev] at h
        simp at h
      · rw [hev] at h
        cases b with
        | false => exact ih st r t htail h
        | true =>
          simp only at h
          rcases List.mem_append.mp h with h' | h'
          · rcases List.mem_cons.mp h' with h'' | h''
            · have hre : r = rule := by injection h'' with a b
              rw [hre]
              simpa using hcd
            · rcases mem_runCallbacks _ _ _ _ _ h'' with ⟨j, hj⟩ | ⟨j, hj⟩ <;> simp at hj
          · have hmem := (fired_mem clock trig rest _ r t h').1
            have hne : rule.id ≠ r.id := hhead r hmem
            have hcool := ih _ r t htail h'
            exact (isInCooldown_congr st ((executeRule st clock rule trig).1) clock.nowMs r.id
              rfl (mapGet_mapSet_ne st.lastExecution rule.id r.id clock.nowMs hne)).symm.trans
              hcool

theorem loop_fires (clock : Clock) (trig : DeviceData) :
    ∀ (l : List Rule) (st : EngineState) (rule : Rule),
      l.Pairwise (fun a b => a.id ≠ b.id) →
      rule ∈ l →
      isInCooldown st clock.nowMs rule.id = false →
      evaluateConditions st.devices clock rule.conditions trig = .ok true →
      (evalRulesLoop clock trig l st).error = none →
      Event.ruleFired rule clock.nowMs ∈ (evalRulesLoop clock trig l st).events := by
  intro l
  induction l with
  | nil => intro st rule hp hm; simp at hm
  | cons c rest ih =>
    intro st rule hp hm hcool hmatch herr
    rcases List.pairwise_cons.mp hp with ⟨hhead, htail⟩
    rcases List.mem_cons.mp hm with heq | hmem
    · subst heq
      unfold evalRulesLoop
      rw [if_neg (by simp [hcool]), hmatch]
      simp only
      apply List.mem_append.mpr
      left
      exact List.mem_cons_self _ _
    · unfold evalRulesLoop at herr ⊢
      by_cases hcd : isInCooldown st clock.nowMs c.id
      · rw [if_pos hcd] at herr ⊢
        exact ih st rule htail hmem hcool hmatch herr
      · rw [if_neg hcd] at herr ⊢
        rcases hev : evaluateConditions st.devices clock c.conditions trig with e | b
        · rw [hev] at herr
          simp at herr
        · rw [hev] at herr
          cases b with
          | false => exact ih st rule htail hmem hcool hmatch herr
          | true =>
            simp only at herr ⊢
            have hne : c.id ≠ rule.id := hhead rule hmem
            have hcool' : isInCooldown
                (executeRule st clock c trig).1 clock.nowMs rule.id = false :=
              (isInCooldown_congr st ((executeRule st clock c trig).1) clock.nowMs rule.id
                rfl (mapGet_mapSet_ne st.lastExecution c.id rule.id clock.nowMs hne)).trans
                hcool
            apply List.mem_append.mpr
            right
            exact ih _ rule htail hmem hcool' hmatch herr

theorem filter_isFired_runCallbacks (ctx : RuleExecutionContext) (actions : List Action) :
    ∀ (cbs : List Callback) (i : ℕ),
      (runCallbacks ctx actions cbs i).filter isFiredEvent = [] := by
  intro cbs
  induction cbs with
  | nil => intro i; simp [runCallbacks]
  | cons cb rest ih =>
    intro i
    unfold runCallbacks
    rcases cb ctx actions with e | u
    · simp [List.filter, isFiredEvent, ih]
    · simp [List.filter, isFiredEvent, ih]

theorem loop_callbacks_indep (clock : Clock) (trig : DeviceData) :
    ∀ (l : List Rule) (st : EngineState) (cbs : List Callback),
      (evalRulesLoop clock trig l { st with executionCallbacks := cbs }).error =
        (evalRulesLoop clock trig l st).error ∧
      (evalRulesLoop clock trig l
          { st with executionCallbacks := cbs }).events.filter isFiredEvent =
        (evalRulesLoop clock trig l st).events.filter isFiredEvent := by
  intro l
  induction l with
  | nil => intro st cbs; exact ⟨rfl, rfl⟩
  | cons rule rest ih =>
    intro st cbs
    obtain ⟨ru, de, le, cb0⟩ := st
    unfold evalRulesLoop
    by_cases hcd : isInCooldown ⟨ru, de, le, cb0⟩ clock.nowMs rule.id
    · have hcd' : isInCooldown ⟨ru, de, le, cbs⟩ clock.nowMs rule.id = true :=
        (isInCooldown_congr ⟨ru, de, le, cb0⟩ ⟨ru, de, le, cbs⟩ clock.nowMs rule.id
          rfl rfl).trans hcd
      rw [if_pos hcd, if_pos hcd']
      exact ih ⟨ru, de, le, cb0⟩ cbs
    · have hcd' : ¬(isInCooldown ⟨ru, de, le, cbs⟩ clock.nowMs rule.id = true) := by
        rw [isInCooldown_congr ⟨ru, de, le, cb0⟩ ⟨ru, de, le, cbs⟩ clock.nowMs rule.id rfl rfl]
        exact hcd
      rw [if_neg hcd, if_neg hcd']
      rcases hev : evaluateConditions de clock rule.conditions trig with e | b
      · exact ⟨rfl, rfl⟩
      · cases b with
        | false => exact ih ⟨ru, de, le, cb0⟩ cbs
        | true =>
          simp only
          obtain ⟨iher, ihev⟩ :=
            ih ⟨ru, de, mapSet le rule.id clock.nowMs, cb0⟩ cbs
          refine ⟨iher, ?_⟩
          rw [List.filter_append, List.filter_append]
          simp only [executeRule, List.filter]
          rw [filter_isFired_runCallbacks, filter_isFired_runCallbacks]
          simp only [isFiredEvent]
          rw [ihev]

theorem fired_all_callbacks (clock : Clock) (trig : DeviceData) :
    ∀ (l : List Rule) (st : EngineState) (r : Rule) (t : ℕ),
      Event.ruleFired r t ∈ (evalRulesLoop clock trig l st).events →
      ∀ j, j < st.executionCallbacks.length →
        ∃ ctx : RuleExecutionContext, ctx.rule = r ∧
          Event.callbackInvoked j ctx ∈ (evalRulesLoop clock trig l st).events := by
  intro l
  induction l with
  | nil => intro st r t h; simp [evalRulesLoop] at h
  | cons rule rest ih =>
    intro st r t h j hj
    unfold evalRulesLoop at h ⊢
    by_cases hcd : isInCooldown st clock.nowMs rule.id
    · rw [if_pos hcd] at h ⊢
      exact ih st r t h j hj
    · rw [if_neg hcd] at h ⊢
      rcases hev : evaluateConditions st.devices clock rule.conditions trig with e | b
      · rw [hev] at h
        simp at h
      · rw [hev] at h
        cases b with
        | false => exact ih st r t h j hj
        | true =>
          simp only at h ⊢
          rcases List.mem_append.mp h with h' | h'
          · rcases List.mem_cons.mp h' with h'' | h''
            · have hre : r = rule := by injection h'' with a b
              refine ⟨firingContext
                  { st with lastExecution := mapSet st.lastExecution rule.id clock.nowMs }
                  clock rule trig, hre.symm, ?_⟩
              apply List.mem_append.mpr
              left
              apply List.mem_cons_of_mem
              have := runCallbacks_invokes_all
                (firingContext
                  { st with lastExecution := mapSet st.lastExecution rule.id clock.nowMs }
                  clock rule trig) rule.actions st.executionCallbacks 0 j hj
              simpa using this
            · rcases mem_runCallbacks _ _ _ _ _ h'' with ⟨j', hj'⟩ | ⟨j', hj'⟩ <;> simp at hj'
          · obtain ⟨ctx, hctx, hmem⟩ := ih _ r t h' j hj
            refine ⟨ctx, hctx, ?_⟩
            apply List.mem_append.mpr
            right
            exact hmem

theorem evalConditionChain_spec (devices : List (String × DeviceData)) (clock : Clock)
    (trig : DeviceData) :
    ∀ (rest : List Condition) (prev : Condition) (acc : Bool) (results : List Bool),
      evalCondList devices clock trig rest = .ok results →
      evalConditionChain devices clock trig prev acc rest =
        .ok (specChainResult acc
          (((prev :: rest).map Condition.logicalOperator).zip results)) := by
  intro rest
  induction rest with
  | nil =>
    intro prev acc results h
    simp only [evalCondList] at h
    injection h with h'
    subst h'
    simp [evalConditionChain, specChainResult]
  | cons c rest' ih =>
    intro prev acc results h
    unfold evalCondList at h
    rcases hc : evaluateCondition devices clock c trig with e | r
    · rw [hc] at h
      simp [bind, Except.bind] at h
    · rw [hc] at h
      rcases hl : evalCondList devices clock trig rest' with e | rs
      · rw [hl] at h
        simp [bind, Except.bind, Functor.map, Except.map] at h
      · rw [hl] at h
        simp only [bind, Except.bind, Functor.map, Except.map] at h
        injection h with h'
        subst h'
        unfold evalConditionChain
        rw [hc]
        simp only [bind, Except.bind]
        rw [ih c _ rs hl]
        rfl

theorem isInCooldown_of_falsy (st : EngineState) (now : ℕ) (rid : String) (rule : Rule)
    (h : mapGet st.rules rid = some rule) (hc : cooldownFalsy rule.cooldownMs = true) :
    isInCooldown st now rid = false := by
  unfold isInCooldown
  simp [h, hc]

theorem isInCooldown_of_no_last (st : EngineState) (now : ℕ) (rid : String)
    (h : mapGet st.lastExecution rid = none) :
    isInCooldown st now rid = false := by
  unfold isInCooldown
  rcases mapGet st.rules rid with _ | rule
  · rfl
  · by_cases hf : cooldownFalsy rule.cooldownMs
    · simp [hf]
    · simp [hf, h]

theorem isInCooldown_char (st : EngineState) (now : ℕ) (rid : String) (rule : Rule)
    (t0 : ℕ) (C : ℚ)
    (h : mapGet st.rules rid = some rule) (hc : rule.cooldownMs = some (.val C))
    (hC : C ≠ 0) (hlast : mapGet st.lastExecution rid = some t0) :
    (isInCooldown st now rid = true ↔ (((now : ℤ) - (t0 : ℤ) : ℤ) : ℚ) < C) := by
  unfold isInCooldown
  simp only [h, hlast, hc]
  simp [cooldownFalsy, hC, numLt]

theorem mapGet_some_mem {α : Type} (m : List (String × α)) (k : String) (v : α)
    (h : mapGet m k = some v) : (k, v) ∈ m := by
  induction m with
  | nil => simp [mapGet] at h
  | cons hd tl ih =>
    obtain ⟨k₀, v₀⟩ := hd
    by_cases h₀ : k₀ = k
    · subst h₀
      simp [mapGet] at h
      subst h
      exact List.mem_cons_self _ _
    · simp [mapGet, h₀] at h
      exact List.mem_cons_of_mem _ (ih h)

/-- While a rule id is in cooldown, no rule carrying that id can fire in
the current pass: non-firing steps leave the cooldown state of that id
untouched, and a firing step would have required the id not to be in
cooldown. -/
theorem loop_no_fire_of_cooldown (clock : Clock) (trig : DeviceData) :
    ∀ (l : List Rule) (st : EngineState) (rid : String),
      isInCooldown st clock.nowMs rid = true →
      ∀ (r' : Rule) (t' : ℕ), r'.id = rid →
        Event.ruleFired r' t' ∉ (evalRulesLoop clock trig l st).events := by
  intro l
  induction l with
  | nil => intro st rid hcool r' t' hid h; simp [evalRulesLoop] at h
  | cons c rest ih =>
    intro st rid hcool r' t' hid h
    unfold evalRulesLoop at h
    by_cases hcd : isInCooldown st clock.nowMs c.id
    · rw [if_pos hcd] at h
      exact ih st rid hcool r' t' hid h
    · rw [if_neg hcd] at h
      have hcne : c.id ≠ rid := by
        intro hceq
        rw [hceq, hcool] at hcd
        exact hcd rfl
      rcases hev : evaluateConditions st.devices clock c.conditions trig with e | b
      · rw [hev] at h
        simp at h
      · rw [hev] at h
        cases b with
        | false => exact ih st rid hcool r' t' hid h
        | true =>
          simp only at h
          rcases List.mem_append.mp h with h' | h'
          · rcases List.mem_cons.mp h' with h'' | h''
            · have : r' = c := by injection h'' with a b
              exact hcne (this ▸ hid)
            · rcases mem_runCallbacks _ _ _ _ _ h'' with ⟨j, hj⟩ | ⟨j, hj⟩ <;> simp at hj
          · have hcool' : isInCooldown
                (executeRule st clock c trig).1 clock.nowMs rid = true :=
              (isInCooldown_congr st ((executeRule st clock c trig).1) clock.nowMs rid
                rfl (mapGet_mapSet_ne st.lastExecution c.id rid clock.nowMs hcne)).trans hcool
            exact ih _ rid hcool' r' t' hid h'

/-- Strict equality against `undefined` holds exactly for `undefined`. -/
theorem strictEq_undef_iff (e : JSVal) : strictEq .undef e = true ↔ e = .undef := by
  cases e <;> simp [strictEq]

/-- `includes` (SameValueZero) finds `undefined` exactly at `undefined`. -/
theorem sameValueZero_undef_iff (e : JSVal) : sameValueZero e .undef = true ↔ e = .undef := by
  cases e with
  | number n => cases n <;> simp [sameValueZero, strictEq]
  | _ => simp [sameValueZero, strictEq]

/-- `between` over an inverted (empty) range matches nothing. -/
theorem compareValues_between_empty (x : JSVal) (lo hi : ℚ) (hlt : hi < lo) :
    compareValues x "between" (.number (.val lo)) (.number (.val hi)) = false := by
  simp only [compareValues]
  norm_num
  rcases hx : toNumber x with _ | q
  · simp [numLe]
  · simp only [toNumber, numLe]
    by_cases hle : lo ≤ q
    · have : ¬(q ≤ hi) := by linarith
      simp [hle, this]
    · simp [hle]

/-- Full characterization of `compareValues` when the actual value is
`undefined`: numeric operators and unknown operators never match;
`=`, `!=`, `contains` and `in` match exactly as the coercions dictate. -/
theorem compareValues_undef_char (op : String) (e s : JSVal) :
    compareValues .undef op e s = true ↔
      ((op = "=" ∧ e = .undef) ∨ (op = "!=" ∧ e ≠ .undef) ∨
        (op = "contains" ∧ jsIncludes "undefined" (jsToString e) = true) ∨
        (op = "in" ∧ ∃ xs, e = .arr xs ∧ .undef ∈ xs)) := by
  by_cases h1 : op = "="
  · subst h1
    simp [compareValues, strictEq_undef_iff]
  · by_cases h2 : op = "!="
    · subst h2
      rw [show compareValues JSVal.undef "!=" e s = !strictEq .undef e from by simp [compareValues]]
      cases e <;> simp [strictEq]
    · by_cases h3 : op = ">"
      · subst h3
        simp [compareValues, toNumber, numLt]
      · by_cases h4 : op = "<"
        · subst h4
          simp [compareValues, toNumber, numLt]
        · by_cases h5 : op = ">="
          · subst h5
            simp [compareValues, toNumber, numLe]
          · by_cases h6 : op = "<="
            · subst h6
              simp [compareValues, toNumber, numLe]
            · by_cases h7 : op = "contains"
              · subst h7
                simp [compareValues, jsToString]
              · by_cases h8 : op = "between"
                · subst h8
                  simp [compareValues, toNumber, numLe]
                · by_cases h9 : op = "in"
                  · subst h9
                    rw [show compareValues JSVal.undef "in" e s =
                        (match e with
                          | .arr xs => xs.any (fun x => sameValueZero x .undef)
                          | _ => false) from by simp [compareValues]]
                    cases e <;> simp [List.any_eq_true, sameValueZero_undef_iff]
                  · simp [compareValues, h1, h2, h3, h4, h5, h6, h7, h8, h9]

/-- C4.  A rule whose conditions list is empty evaluates its chain to
`false` and therefore never fires and never reaches a callback, for every
trigger through either public ingress method. -/
theorem claim_C4_empty_conditions_never_fire :
    (∀ devices clock trigger,
      evaluateConditions devices clock [] trigger = .ok false) ∧
    (∀ st clock trigger (r : Rule) (t : ℕ), r.conditions = [] →
      Event.ruleFired r t ∉ (evaluateRules st clock trigger).events) ∧
    (∀ st clock (dd : DeviceData) (r : Rule) (t : ℕ), r.conditions = [] →
      Event.ruleFired r t ∉ (updateDeviceData st clock dd).events) ∧
    (∀ st clock (did : String) (r : Rule) (t : ℕ), r.conditions = [] →
      Event.ruleFired r t ∉ (markDeviceOffline st clock did).events) ∧
    (∀ st clock trigger (j : ℕ) (ctx : RuleExecutionContext), ctx.rule.conditions = [] →
      Event.callbackInvoked j ctx ∉ (evaluateRules st clock trigger).events) := by
  have hfired : ∀ st clock (trigger : DeviceData) (r : Rule) (t : ℕ), r.conditions = [] →
      Event.ruleFired r t ∉ (evaluateRules st clock trigger).events := by
    intro st clock trigger r t hr hmem
    have hc := (fired_mem clock trigger _ st r t hmem).2.2
    rw [hr] at hc
    simp [evaluateConditions] at hc
  refine ⟨fun _ _ _ => rfl, hfired, ?_, ?_, ?_⟩
  · intro st clock dd r t hr
    exact hfired _ clock dd r t hr
  · intro st clock did r t hr hmem
    unfold markDeviceOffline at hmem
    rcases hd : mapGet st.devices did with _ | device
    · rw [hd] at hmem
      simp at hmem
    · rw [hd] at hmem
      exact hfired _ clock _ r t hr hmem
  · intro st clock trigger j ctx hr hmem
    have hc := (callbackInvoked_mem clock trigger _ st j ctx hmem).2.2
    rw [hr] at hc
    simp [evaluateConditions] at hc

/-- C4 witness: the concrete empty-condition rule does not fire on a
concrete telemetry update. -/
theorem claim_C4_witness :
    emptyCondRule.conditions = [] ∧
    Event.ruleFired emptyCondRule 1000 ∉
      (updateDeviceData emptyCondState sampleClock sampleTrigger).events :=
  ⟨rfl, claim_C4_empty_conditions_never_fire.2.2.1 emptyCondState sampleClock sampleTrigger
    emptyCondRule 1000 rfl⟩

/-- C8.  `getAllRules` returns the stored rules sorted by descending
priority (pairwise), as a permutation of the stored values, and stably:
for every priority the equal-priority rules appear exactly in store
(insertion) order. -/
theorem claim_C8_getAllRules_sorted_stable :
    ∀ st : EngineState,
      (getAllRules st).Pairwise (fun a b => b.priority ≤ a.priority) ∧
      (getAllRules st).Perm (mapValuesList st.rules) ∧
      (∀ p : ℚ, (getAllRules st).filter (fun r => decide (r.priority = p)) =
        (mapValuesList st.rules).filter (fun r => decide (r.priority = p))) :=
  fun st =>
    ⟨sortByPriorityDesc_pairwise _, sortByPriorityDesc_perm _,
      fun p => sortByPriorityDesc_filter _ p⟩

/-- C9.  `between` with an inverted range (`lo > hi`) is empty — it does
not wrap around — and consequently the seeded rule
`door-open-night-alert` (hour `between` 22 and 6) evaluates its chain to
`false` and can never fire nor reach a callback, whatever the hour. -/
theorem claim_C9_between_empty_night_rule_never_fires :
    (∀ (x : JSVal) (lo hi : ℚ), hi < lo →
      compareValues x "between" (.number (.val lo)) (.number (.val hi)) = false) ∧
    (∀ devices clock trigger,
      evaluateConditions devices clock doorOpenNightAlertRule.conditions trigger =
        .ok false) ∧
    (∀ st clock trigger (t : ℕ),
      Event.ruleFired doorOpenNightAlertRule t ∉ (evaluateRules st clock trigger).events) ∧
    (∀ st clock trigger (j : ℕ) (ctx : RuleExecutionContext),
      ctx.rule = doorOpenNightAlertRule →
      Event.callbackInvoked j ctx ∉ (evaluateRules st clock trigger).events) := by
  have hchain : ∀ devices clock (trigger : DeviceData),
      evaluateConditions devices clock doorOpenNightAlertRule.conditions trigger =
        .ok false := by
    intro devices clock trigger
    have hhour : compareValues (.number (.val (clock.hour : ℚ))) "between"
        (.number (.val 22)) (.number (.val 6)) = false :=
      compareValues_between_empty _ 22 6 (by norm_num)
    simp only [doorOpenNightAlertRule, evaluateConditions, evaluateCondition,
      evalConditionChain, evaluateTime, bind, Except.bind]
    norm_num
    rw [hhour]
    simp
  refine ⟨fun x lo hi h => compareValues_between_empty x lo hi h, hchain, ?_, ?_⟩
  · intro st clock trigger t hmem
    have hc := (fired_mem clock trigger _ st _ t hmem).2.2
    rw [hchain st.devices clock trigger] at hc
    simp at hc
  · intro st clock trigger j ctx hctx hmem
    have hc := (callbackInvoked_mem clock trigger _ st j ctx hmem).2.2
    rw [hctx, hchain st.devices clock trigger] at hc
    simp at hc

/-- C9 witness: at 23:15 the inverted range rejects hour 23, and the
seeded engine does not fire the night rule even for an open door. -/
theorem claim_C9_witness :
    ((6 : ℚ) < 22) ∧
    compareValues (.number (.val 23)) "between" (.number (.val 22)) (.number (.val 6)) =
      false ∧
    Event.ruleFired doorOpenNightAlertRule 1000 ∉
      (evaluateRules newRuleEngine sampleClock doorTrigger).events :=
  ⟨by norm_num,
    claim_C9_between_empty_night_rule_never_fires.1 (.number (.val 23)) 22 6 (by norm_num),
    claim_C9_between_empty_night_rule_never_fires.2.2.1 newRuleEngine sampleClock
      doorTrigger 1000⟩

/-- C10.  A rule with `cooldownMs = 0` is never in cooldown — zero is
falsy, exactly like an absent `cooldownMs` — even immediately after the
rule fires. -/
theorem claim_C10_zero_cooldown_never_throttles :
    (∀ st now rid (rule : Rule), mapGet st.rules rid = some rule →
      rule.cooldownMs = some (.val 0) → isInCooldown st now rid = false) ∧
    (∀ st now rid (rule : Rule), mapGet st.rules rid = some rule →
      rule.cooldownMs = none → isInCooldown st now rid = false) ∧
    (∀ st clock (rule : Rule) trigger, mapGet st.rules rule.id = some rule →
      rule.cooldownMs = some (.val 0) →
      ∀ t : ℕ, isInCooldown (executeRule st clock rule trigger).1 t rule.id = false) := by
  refine ⟨?_, ?_, ?_⟩
  · intro st now rid rule h hc
    exact isInCooldown_of_falsy st now rid rule h (by rw [hc]; decide)
  · intro st now rid rule h hc
    exact isInCooldown_of_falsy st now rid rule h (by rw [hc]; rfl)
  · intro st clock rule trigger h hc t
    exact isInCooldown_of_falsy _ t rule.id rule h (by rw [hc]; decide)

/-- C10 witness: the concrete zero-cooldown rule is not in cooldown right
after it fires. -/
theorem claim_C10_witness :
    zeroCooldownRule.cooldownMs = some (.val 0) ∧
    isInCooldown
      (executeRule zeroCooldownState sampleClock zeroCooldownRule sampleTrigger).1
      1000 "zero-cd" = false :=
  ⟨rfl, claim_C10_zero_cooldown_never_throttles.2.2 zeroCooldownState sampleClock
    zeroCooldownRule sampleTrigger rfl rfl 1000⟩

/-- C2 (failing input).  A `time` condition whose `value` is not a string
does not degrade to non-matching: `condition.value.split(':')` throws a
TypeError, and the exception escapes both public ingress methods
(`updateDeviceData` and `markDeviceOffline`), contradicting the
never-throws contract. -/
theorem claim_C2_time_condition_throws :
    evaluateTime sampleClock badTimeCondition =
      .error (.typeError "condition.value.split is not a function") ∧
    (updateDeviceData badTimeState sampleClock sampleTrigger).error =
      some (.typeError "condition.value.split is not a function") ∧
    (markDeviceOffline badTimeState sampleClock "dev-1").error =
      some (.typeError "condition.value.split is not a function") :=
  ⟨rfl, rfl, rfl⟩

/-- C5 counterexample.  An undefined extracted value does match operators
other than `!=`: strict equality matches an undefined expected value, and
`contains` coerces `undefined` to the string `"undefined"`, which contains
`"undef"`. -/
theorem claim_C5_counterexample :
    compareValues JSVal.undef "=" JSVal.undef JSVal.undef = true ∧
    compareValues JSVal.undef "contains" (.str "undef") JSVal.undef = true :=
  ⟨rfl, rfl⟩

/-- C5 (amended).  The extractor walks the dotted path and yields
`undefined` (never an error) when the current value is not a structured
object or the key is absent; an undefined extracted value never matches
`>`, `<`, `>=`, `<=`, `between` or unknown operators, matches `=` exactly
when the expected value is itself `undefined`, `!=` exactly when it is
not, `contains` exactly when the string coercion of the expected value is
a substring of `"undefined"`, and `in` exactly when the expected value is
an array containing `undefined`. -/
theorem claim_C5_undefined_extraction_semantics :
    (∀ (fields : List (String × JSVal)) (part : String) (rest : List String),
      mapGet fields part = none → walkPath (.obj fields) (part :: rest) = .undef) ∧
    (∀ (v : JSVal) (part : String) (rest : List String),
      objGet v part = none → walkPath v (part :: rest) = .undef) ∧
    (∀ (s part : String) (rest : List String),
      walkPath (.str s) (part :: rest) = .undef) ∧
    (∀ (n : JSNum) (part : String) (rest : List String),
      walkPath (.number n) (part :: rest) = .undef) ∧
    (∀ (op : String) (e s : JSVal),
      compareValues .undef op e s = true ↔
        ((op = "=" ∧ e = .undef) ∨ (op = "!=" ∧ e ≠ .undef) ∨
          (op = "contains" ∧ jsIncludes "undefined" (jsToString e) = true) ∨
          (op = "in" ∧ ∃ xs, e = .arr xs ∧ .undef ∈ xs))) := by
  refine ⟨?_, ?_, ?_, ?_, compareValues_undef_char⟩
  · intro fields part rest h
    simp [walkPath, objGet, h]
  · intro v part rest h
    simp [walkPath, h]
  · intro s part rest
    simp [walkPath, objGet]
  · intro n part rest
    simp [walkPath, objGet]

/-- C5 witness: a missing key yields `undefined` on a concrete object. -/
theorem claim_C5_witness :
    mapGet [("a", JSVal.number (.val 1))] "b" = none ∧
    walkPath (.obj [("a", .number (.val 1))]) ["b"] = .undef :=
  ⟨rfl,
    claim_C5_undefined_extraction_semantics.1 [("a", .number (.val 1))] "b" [] rfl⟩

/-- C6 counterexample.  `updateRule` spreads the supplied fields over the
stored rule, so an `updates` object carrying `id` overwrites the stored
rule's id while the store key is unchanged: the rule stored under key
`"r"` ends up with id `"x"`. -/
theorem claim_C6_counterexample :
    c6Rule.id = "r" ∧
    (mapGet (updateRule c6State "r" c6IdUpdates).1.rules "r").map Rule.id = some "x" ∧
    ("x" : String) ≠ "r" :=
  ⟨rfl, rfl, by decide⟩

/-- C6 (amended).  `addRule` stores a rule under its own id, and the
key-equals-id invariant is preserved by `addRule` and by `updateRule`
whenever the updates object does not carry an `id` field; `updateRule`
shallow-merges only the supplied fields and keeps the store key, and
`enableRule`/`disableRule` never change a rule's id — but an updates
object that does carry `id` overwrites the stored rule's id (the
counterexample), so id immutability holds only for updates without `id`. -/
theorem claim_C6_id_and_key_invariants :
    (∀ st (r : Rule), mapGet (addRule st r).rules r.id = some r) ∧
    (∀ (r : Rule) (u : RuleUpdates), u.id = none → (mergeRule r u).id = r.id) ∧
    (∀ st rid (u : RuleUpdates) (rule : Rule), mapGet st.rules rid = some rule →
      mapGet (updateRule st rid u).1.rules rid = some (mergeRule rule u)) ∧
    (∀ st (r : Rule), (∀ p ∈ st.rules, (Prod.fst p) = (Prod.snd p).id) →
      ∀ p ∈ (addRule st r).rules, (Prod.fst p) = (Prod.snd p).id) ∧
    (∀ st rid (u : RuleUpdates), u.id = none →
      (∀ p ∈ st.rules, (Prod.fst p) = (Prod.snd p).id) →
      ∀ p ∈ (updateRule st rid u).1.rules, (Prod.fst p) = (Prod.snd p).id) ∧
    (∀ st rid (rule : Rule), mapGet st.rules rid = some rule →
      (mapGet (enableRule st rid).1.rules rid).map Rule.id = some rule.id ∧
      (mapGet (disableRule st rid).1.rules rid).map Rule.id = some rule.id) := by
  have hmerge : ∀ (r : Rule) (u : RuleUpdates), u.id = none → (mergeRule r u).id = r.id := by
    intro r u h
    simp [mergeRule, h]
  have hupd : ∀ st rid (u : RuleUpdates) (rule : Rule), mapGet st.rules rid = some rule →
      mapGet (updateRule st rid u).1.rules rid = some (mergeRule rule u) := by
    intro st rid u rule h
    unfold updateRule
    rw [h]
    exact mapGet_mapSet_self _ _ _
  refine ⟨?_, hmerge, hupd, ?_, ?_, ?_⟩
  · intro st r
    exact mapGet_mapSet_self _ _ _
  · intro st r hst p hp
    rcases mem_mapSet _ _ _ p hp with h | h
    · exact hst p h
    · rw [h]
  · intro st rid u hu hst p hp
    unfold updateRule at hp
    rcases hg : mapGet st.rules rid with _ | rule
    · rw [hg] at hp
      exact hst p hp
    · rw [hg] at hp
      rcases mem_mapSet _ _ _ p hp with h | h
      · exact hst p h
      · rw [h]
        have hkey : rid = rule.id := hst (rid, rule) (mapGet_some_mem _ _ _ hg)
        rw [hmerge rule u hu]
        exact hkey
  · intro st rid rule h
    constructor
    · rw [show (enableRule st rid).1 = (updateRule st rid
          { emptyUpdates with enabled := some true }).1 from rfl]
      rw [hupd st rid _ rule h]
      simp [hmerge rule { emptyUpdates with enabled := some true } rfl]
    · rw [show (disableRule st rid).1 = (updateRule st rid
          { emptyUpdates with enabled := some false }).1 from rfl]
      rw [hupd st rid _ rule h]
      simp [hmerge rule { emptyUpdates with enabled := some false } rfl]

/-- C6 witness: an update without an `id` field keeps the stored rule's
id under the original key. -/
theorem claim_C6_witness :
    mapGet c6State.rules "r" = some c6Rule ∧
    (mapGet (updateRule c6State "r" c6NameUpdates).1.rules "r").map Rule.id = some "r" := by
  refine ⟨rfl, ?_⟩
  have h := claim_C6_id_and_key_invariants.2.2.1 c6State "r" c6NameUpdates c6Rule rfl
  rw [h]
  rfl

/-- C1.  The condition chain is a left fold: condition 0's result seeds
the running result, and each subsequent condition's result is combined
using the `logicalOperator` of its predecessor (AND when unspecified), as
formalized by `specChainResult`/`specCombine`; in particular
`[A(OR), B(AND), C]` evaluates as `(A OR B) AND C`. -/
theorem claim_C1_chain_left_fold :
    (∀ devices clock trigger (c0 : Condition) (rest : List Condition) (r0 : Bool)
        (rs : List Bool),
      evalCondList devices clock trigger (c0 :: rest) = .ok (r0 :: rs) →
      evaluateConditions devices clock (c0 :: rest) trigger =
        .ok (specChainResult r0
          (((c0 :: rest).map Condition.logicalOperator).zip rs))) ∧
    (∀ devices clock trigger (A B C : Condition) (ra rb rc : Bool),
      evaluateCondition devices clock A trigger = .ok ra →
      evaluateCondition devices clock B trigger = .ok rb →
      evaluateCondition devices clock C trigger = .ok rc →
      A.logicalOperator = some "OR" →
      B.logicalOperator = some "AND" →
      evaluateConditions devices clock [A, B, C] trigger = .ok ((ra || rb) && rc)) := by
  constructor
  · intro devices clock trigger c0 rest r0 rs h
    unfold evalCondList at h
    rcases hc : evaluateCondition devices clock c0 trigger with e | r
    · rw [hc] at h
      simp [bind, Except.bind] at h
    · rw [hc] at h
      rcases hl : evalCondList devices clock trigger rest with e | rs'
      · rw [hl] at h
        simp [bind, Except.bind, Functor.map, Except.map] at h
      · rw [hl] at h
        simp only [bind, Except.bind, Functor.map, Except.map] at h
        injection h with h'
        injection h' with h1 h2
        subst h1
        subst h2
        simp only [evaluateConditions]
        rw [hc]
        simp only [bind, Except.bind]
        exact evalConditionChain_spec devices clock trigger rest c0 _ _ hl
  · intro devices clock trigger A B C ra rb rc hA hB hC hAor hBand
    simp only [evaluateConditions]
    rw [hA]
    simp only [bind, Except.bind]
    simp only [evalConditionChain]
    rw [hB, hC, hAor, hBand]
    simp [bind, Except.bind]

/-- C1 witness: a concrete `[A(OR), B(AND), C]` chain with results
`false, true, false` evaluates to `(false OR true) AND false = false`. -/
theorem claim_C1_witness :
    evaluateCondition [] sampleClock (compositeCond (some "OR")) sampleTrigger =
      .ok false ∧
    evaluateCondition [] sampleClock (ghostOfflineCond (some "AND")) sampleTrigger =
      .ok true ∧
    evaluateCondition [] sampleClock (compositeCond none) sampleTrigger = .ok false ∧
    evaluateConditions [] sampleClock
      [compositeCond (some "OR"), ghostOfflineCond (some "AND"), compositeCond none]
      sampleTrigger = .ok false :=
  ⟨rfl, rfl, rfl,
    claim_C1_chain_left_fold.2 [] sampleClock sampleTrigger
      (compositeCond (some "OR")) (ghostOfflineCond (some "AND")) (compositeCond none)
      false true false rfl rfl rfl rfl rfl⟩

/-- C7.  A throwing execution callback is isolated: every registered
callback is still invoked for the firing, the set of rule firings and the
error surfaced to the caller are independent of the registered callbacks
(so remaining rules are still evaluated and the caller of
`updateDeviceData` never observes a callback's exception). -/
theorem claim_C7_callback_isolation :
    (∀ st clock trigger (r : Rule) (t : ℕ),
      Event.ruleFired r t ∈ (evaluateRules st clock trigger).events →
      ∀ j, j < st.executionCallbacks.length →
        ∃ ctx : RuleExecutionContext, ctx.rule = r ∧
          Event.callbackInvoked j ctx ∈ (evaluateRules st clock trigger).events) ∧
    (∀ st clock trigger (cbs : List Callback),
      (evaluateRules { st with executionCallbacks := cbs } clock trigger).error =
        (evaluateRules st clock trigger).error ∧
      (evaluateRules { st with executionCallbacks := cbs } clock
          trigger).events.filter isFiredEvent =
        (evaluateRules st clock trigger).events.filter isFiredEvent) ∧
    (∀ st clock (dd : DeviceData) (cbs : List Callback),
      (updateDeviceData { st with executionCallbacks := cbs } clock dd).error =
        (updateDeviceData st clock dd).error) := by
  refine ⟨?_, ?_, ?_⟩
  · intro st clock trigger r t hmem j hj
    exact fired_all_callbacks clock trigger _ st r t hmem j hj
  · intro st clock trigger cbs
    exact loop_callbacks_indep clock trigger _ st cbs
  · intro st clock dd cbs
    exact (loop_callbacks_indep clock dd _
      { st with devices := mapSet st.devices dd.deviceId { dd with timestamp := clock.nowMs } }
      cbs).1

/-- C7 witness: with a throwing callback registered first, the rule still
fires, the second callback is still invoked, and no error reaches the
caller. -/
theorem claim_C7_witness :
    (evaluateRules c7State sampleClock sampleTrigger).events =
      [.ruleFired c7Rule 1000, .callbackInvoked 0 c7Ctx, .callbackError 0 c7Ctx,
        .callbackInvoked 1 c7Ctx] ∧
    (evaluateRules c7State sampleClock sampleTrigger).error = none ∧
    (∃ ctx : RuleExecutionContext, ctx.rule = c7Rule ∧
      Event.callbackInvoked 1 ctx ∈ (evaluateRules c7State sampleClock sampleTrigger).events) := by
  have hev : (evaluateRules c7State sampleClock sampleTrigger).events =
      [.ruleFired c7Rule 1000, .callbackInvoked 0 c7Ctx, .callbackError 0 c7Ctx,
        .callbackInvoked 1 c7Ctx] := rfl
  refine ⟨hev, rfl, ?_⟩
  exact claim_C7_callback_isolation.1 c7State sampleClock sampleTrigger c7Rule 1000
    (hev ▸ List.mem_cons_self _ _) 1 (by decide)

/-- C3.  Cooldown semantics: a rule without `cooldownMs` is never in
cooldown; absence of a prior execution timestamp means not in cooldown;
with a (nonzero) numeric `cooldownMs = C` the rule is in cooldown exactly
when `now − lastExecution < C`; the last-execution timestamp is recorded
when the rule is selected for firing, before any callback event; a
qualifying trigger strictly before `t0 + C` cannot re-fire any rule with
that id, while at or after `t0 + C` the rule is out of cooldown and a
qualifying trigger fires it again. -/
theorem claim_C3_cooldown_semantics :
    (∀ st now rid (rule : Rule), mapGet st.rules rid = some rule →
      rule.cooldownMs = none → isInCooldown st now rid = false) ∧
    (∀ st now rid, mapGet st.lastExecution rid = none →
      isInCooldown st now rid = false) ∧
    (∀ st now rid (rule : Rule) (t0 : ℕ) (C : ℚ), mapGet st.rules rid = some rule →
      rule.cooldownMs = some (.val C) → C ≠ 0 →
      mapGet st.lastExecution rid = some t0 →
      (isInCooldown st now rid = true ↔ (((now : ℤ) - (t0 : ℤ) : ℤ) : ℚ) < C)) ∧
    (∀ st clock (rule : Rule) trigger,
      mapGet (executeRule st clock rule trigger).1.lastExecution rule.id =
        some clock.nowMs ∧
      ((executeRule st clock rule trigger).2).head? =
        some (.ruleFired rule clock.nowMs)) ∧
    (∀ st clock (rule : Rule) trigger (C : ℚ),
      mapGet st.rules rule.id = some rule →
      rule.cooldownMs = some (.val C) → C ≠ 0 →
      ∀ (clock2 : Clock) (trigger2 : DeviceData),
        ((((clock2.nowMs : ℤ) - (clock.nowMs : ℤ) : ℤ) : ℚ) < C →
          ∀ (r' : Rule) (t' : ℕ), r'.id = rule.id →
            Event.ruleFired r' t' ∉
              (evaluateRules (executeRule st clock rule trigger).1 clock2
                trigger2).events) ∧
        (C ≤ (((clock2.nowMs : ℤ) - (clock.nowMs : ℤ) : ℤ) : ℚ) →
          isInCooldown (executeRule st clock rule trigger).1 clock2.nowMs rule.id =
            false)) ∧
    (∀ st clock (rule : Rule) trigger (C : ℚ) (clock2 : Clock) (trigger2 : DeviceData),
      mapGet st.rules rule.id = some rule →
      rule.cooldownMs = some (.val C) → C ≠ 0 →
      (mapValuesList st.rules).Pairwise (fun a b => a.id ≠ b.id) →
      rule ∈ mapValuesList st.rules → rule.enabled = true →
      C ≤ (((clock2.nowMs : ℤ) - (clock.nowMs : ℤ) : ℤ) : ℚ) →
      evaluateConditions st.devices clock2 rule.conditions trigger2 = .ok true →
      (evaluateRules (executeRule st clock rule trigger).1 clock2 trigger2).error =
        none →
      Event.ruleFired rule clock2.nowMs ∈
        (evaluateRules (executeRule st clock rule trigger).1 clock2 trigger2).events) := by
  refine ⟨?_, ?_, ?_, ?_, ?_, ?_⟩
  · intro st now rid rule h hc
    exact isInCooldown_of_falsy st now rid rule h (by rw [hc]; rfl)
  · intro st now rid h
    exact isInCooldown_of_no_last st now rid h
  · intro st now rid rule t0 C h hc hC hlast
    exact isInCooldown_char st now rid rule t0 C h hc hC hlast
  · intro st clock rule trigger
    exact ⟨mapGet_mapSet_self _ _ _, rfl⟩
  · intro st clock rule trigger C h hc hC clock2 trigger2
    have hrules : mapGet (executeRule st clock rule trigger).1.rules rule.id =
        some rule := h
    have hlast : mapGet (executeRule st clock rule trigger).1.lastExecution rule.id =
        some clock.nowMs := mapGet_mapSet_self _ _ _
    have hchar := isInCooldown_char (executeRule st clock rule trigger).1 clock2.nowMs
      rule.id rule clock.nowMs C hrules hc hC hlast
    constructor
    · intro hdiff r' t' hid hmem
      exact loop_no_fire_of_cooldown clock2 trigger2 _ _ rule.id (hchar.mpr hdiff)
        r' t' hid hmem
    · intro hge
      exact Bool.eq_false_iff.mpr (fun ht => absurd (hchar.mp ht) (not_lt.mpr hge))
  · intro st clock rule trigger C clock2 trigger2 h hc hC hpw hmem hen hge hmatch herr
    have hrules : mapGet (executeRule st clock rule trigger).1.rules rule.id =
        some rule := h
    have hlast : mapGet (executeRule st clock rule trigger).1.lastExecution rule.id =
        some clock.nowMs := mapGet_mapSet_self _ _ _
    have hchar := isInCooldown_char (executeRule st clock rule trigger).1 clock2.nowMs
      rule.id rule clock.nowMs C hrules hc hC hlast
    have hcool : isInCooldown (executeRule st clock rule trigger).1 clock2.nowMs
        rule.id = false :=
      Bool.eq_false_iff.mpr (fun ht => absurd (hchar.mp ht) (not_lt.mpr hge))
    have hfil : ((mapValuesList st.rules).filter (fun r => r.enabled)).Pairwise
        (fun a b => a.id ≠ b.id) := hpw.filter _
    have hperm :=
      sortByPriorityDesc_perm ((mapValuesList st.rules).filter (fun r => r.enabled))
    have hpair : (sortByPriorityDesc ((mapValuesList st.rules).filter
        (fun r => r.enabled))).Pairwise (fun a b => a.id ≠ b.id) :=
      (hperm.pairwise_iff (fun h' => h'.symm)).mpr hfil
    have hmem' : rule ∈ sortByPriorityDesc ((mapValuesList st.rules).filter
        (fun r => r.enabled)) :=
      hperm.mem_iff.mpr (List.mem_filter.mpr ⟨hmem, hen⟩)
    exact loop_fires clock2 trigger2 _ _ rule hpair hmem' hcool hmatch herr

/-- C3 witness: the concrete cooldown rule, fired at t = 1000 ms with a
5000 ms cooldown, cannot re-fire at t = 2000 ms. -/
theorem claim_C3_witness :
    mapGet c3State.rules "cd" = some c3Rule ∧
    c3Rule.cooldownMs = some (.val 5000) ∧
    ((5000 : ℚ) ≠ 0) ∧
    (((c3Clock2.nowMs : ℤ) - (c3Clock1.nowMs : ℤ) : ℤ) : ℚ) < 5000 ∧
    Event.ruleFired c3Rule 2000 ∉
      (evaluateRules (executeRule c3State c3Clock1 c3Rule sampleTrigger).1 c3Clock2
        sampleTrigger).events := by
  refine ⟨rfl, rfl, by norm_num, by decide, ?_⟩
  exact (claim_C3_cooldown_semantics.2.2.2.2.1 c3State c3Clock1 c3Rule sampleTrigger
    5000 rfl rfl (by norm_num) c3Clock2 sampleTrigger).1 (by decide) c3Rule 2000 rfl

end MqttDemo
